import Mathlib

/-!
Shallow embedding of the container in
src/single-linked-list/single-linked-list.h.

Representation. A node chain hanging off the sentinel node head_ is
modelled by the list of values of its real nodes, in link order; the
separately maintained counter size_ keeps its own field. A position
handle (BasicIterator) stores a single raw pointer node_; we model a
pointer into a given list state by the index of the node it addresses:
index 0 is the sentinel head_, indices 1..n are the real nodes, and a
null pointer is modelled by none.
-/

namespace SLL

/-- Model of SingleLinkedList: chain is the sequence of real-node
values reachable from head_ through next_node; size_ is the stored
element counter (maintained independently, as in the source). -/
structure SingleLinkedList (α : Type) where
  chain : List α
  size_ : Nat
deriving DecidableEq, Repr

/-- Model of BasicIterator: the node_ pointer, as an index into the
current chain (0 = sentinel, k = k-th real node); none is nullptr. -/
abbrev Iter : Type := Option Nat

variable {α : Type}

/-- Pointer equality of two iterators, the node_ == rhs.node_ test of
BasicIterator::operator==. -/
def iterEq (a b : Iter) : Bool := a == b

/-- The node_ field of a default-constructed BasicIterator: nullptr. -/
def defaultIter : Iter := none

/-- Value of the next_node pointer stored in node k of list l: the
pointer to node k+1 when that node exists, nullptr otherwise. -/
def nextPtr (l : SingleLinkedList α) (k : Nat) : Iter :=
  if k + 1 ≤ l.chain.length then some (k + 1) else none

/-- GetSize: returns size_. -/
def GetSize (l : SingleLinkedList α) : Nat := l.size_

/-- IsEmpty: returns size_ == 0. -/
def IsEmpty (l : SingleLinkedList α) : Bool := l.size_ == 0

/-- The begin() family: Iterator(head_.next_node). -/
def beginIter (l : SingleLinkedList α) : Iter := nextPtr l 0

/-- The end() family: Iterator(nullptr). -/
def endIter (_l : SingleLinkedList α) : Iter := none

/-- cend(): ConstIterator(nullptr). -/
def cendIter (_l : SingleLinkedList α) : Iter := none

/-- before_begin()/cbefore_begin(): an iterator holding the address of
the sentinel node head_. -/
def beforeBegin (_l : SingleLinkedList α) : Iter := some 0

/-- Dereference of an iterator, operator*: the value stored in the
node it addresses. For the sentinel (index 0) the source would read
the default-constructed head_.value, which holds no user value; we
return none there as well as for nullptr. -/
def derefIter (l : SingleLinkedList α) (it : Iter) : Option α :=
  match it with
  | none => none
  | some k =>
      if h : 1 ≤ k ∧ k ≤ l.chain.length then
        some (l.chain.get ⟨k - 1, by omega⟩)
      else none

/-- Splices a value into a chain so that it becomes the node at
0-based position k, the relink done by InsertAfter at node k. -/
def listInsertAt : Nat → α → List α → List α
  | 0, v, xs => v :: xs
  | _ + 1, v, [] => [v]
  | n + 1, v, x :: xs => x :: listInsertAt n v xs

/-- Unlinks the node at 0-based position k of a chain, the relink done
by EraseAfter around the deleted node. -/
def listEraseAt : Nat → List α → List α
  | _, [] => []
  | 0, _ :: xs => xs
  | n + 1, x :: xs => x :: listEraseAt n xs

/-- PushFront: head_.next_node = new Node(value, head_.next_node);
++size_. -/
def PushFront (l : SingleLinkedList α) (v : α) : SingleLinkedList α :=
  ⟨v :: l.chain, l.size_ + 1⟩

/-- Clear: deletes every node reachable from head_ and sets size_ to
zero. -/
def Clear (_l : SingleLinkedList α) : SingleLinkedList α := ⟨[], 0⟩

/-- swap: exchanges head_.next_node and size_ of the two lists. -/
def swapOp (a b : SingleLinkedList α) :
    SingleLinkedList α × SingleLinkedList α :=
  (⟨b.chain, b.size_⟩, ⟨a.chain, a.size_⟩)

/-- Possible outcomes of one call to InsertAfter. -/
inductive InsertResult where
  | ok (it : Iter)
  | assertFail
  | thrown
  | ub
deriving DecidableEq, Repr

/-- InsertAfter(pos, value). The argument mk is the outcome of the
expression new Node(value, node_after_added): some v when the node is
constructed holding v, none when construction throws. The statements
run in source order: assert(pos.node_ != nullptr); read
node_after_added from pos.node_ (undefined if pos dangles); construct
the node (exit with the untouched state on a throw); only then relink
pos.node_->next_node and bump size_. Returns the list state at exit
paired with the outcome. -/
def InsertAfterRun (l : SingleLinkedList α) (pos : Iter) (mk : Option α) :
    SingleLinkedList α × InsertResult :=
  match pos with
  | none => (l, .assertFail)
  | some k =>
      if k ≤ l.chain.length then
        match mk with
        | none => (l, .thrown)
        | some v =>
            (⟨listInsertAt k v l.chain, l.size_ + 1⟩, .ok (some (k + 1)))
      else (l, .ub)

/-- Possible outcomes of one call to EraseAfter. -/
inductive EraseResult (α : Type) where
  | ok (l : SingleLinkedList α) (it : Iter)
  | assertFail
  | ub
deriving DecidableEq, Repr

/-- EraseAfter(pos), in source order: assert(!IsEmpty()); then read
pos.node_->next_node->next_node, which dereferences nullptr when
pos.node_ is null or when node k has no successor (and reads a
dangling pointer when pos addresses no node); then delete the
successor, relink, decrement size_, and return an iterator to the
node after the deleted one. -/
def EraseAfterRun (l : SingleLinkedList α) (pos : Iter) : EraseResult α :=
  if IsEmpty l then .assertFail
  else
    match pos with
    | none => .ub
    | some k =>
        if k ≤ l.chain.length then
          match nextPtr l k with
          | none => .ub
          | some _ =>
              .ok ⟨listEraseAt k l.chain, l.size_ - 1⟩
                (if k + 2 ≤ l.chain.length then some (k + 1) else none)
        else .ub

/-- Possible outcomes of one call to PopFront. -/
inductive PopResult (α : Type) where
  | ok (l : SingleLinkedList α)
  | assertFail
  | ub
deriving DecidableEq, Repr

/-- PopFront, in source order: assert(!IsEmpty()); save head_.next_node;
head_.next_node = head_.next_node->next_node (dereferences nullptr when
the chain is empty although size_ is not zero); decrement size_; delete
the saved node. -/
def PopFrontRun (l : SingleLinkedList α) : PopResult α :=
  if IsEmpty l then .assertFail
  else
    match l.chain with
    | [] => .ub
    | _ :: rest => .ok ⟨rest, l.size_ - 1⟩

/-- Body of the range-for in FillingListInSeries: for each value,
temp_list.InsertAfter(temp_it, value) followed by ++temp_it (which
moves temp_it to the next_node of the node it addresses, in the
updated list). The non-ok branches never run on the calls the source
makes; they return the current state unchanged. -/
def fillLoop (temp : SingleLinkedList α) (it : Iter) :
    List α → SingleLinkedList α × Iter
  | [] => (temp, it)
  | v :: vs =>
      match InsertAfterRun temp it (some v) with
      | (t, InsertResult.ok _) =>
          match it with
          | some k => fillLoop t (nextPtr t k) vs
          | none => (t, it)
      | (t, _) => (t, it)

/-- FillingListInSeries(from): assert(IsEmpty()) — none signals the
assertion firing — then fill a default-constructed temp_list by the
loop starting at temp_it = temp_list.before_begin(), and swap temp_list
into the current list. The source of values is passed already
linearised as the list its begin/end traversal yields. -/
def FillingListInSeries (l : SingleLinkedList α) (source : List α) :
    Option (SingleLinkedList α) :=
  if IsEmpty l then
    some (fillLoop (⟨[], 0⟩ : SingleLinkedList α)
      (beforeBegin (⟨[], 0⟩ : SingleLinkedList α)) source).1
  else none

/-- The initializer_list constructor: default-construct (empty), then
FillingListInSeries(values). The getD default is never reached: the
assertion passes on the empty list. -/
def initListCtor (values : List α) : SingleLinkedList α :=
  (FillingListInSeries ⟨[], 0⟩ values).getD ⟨[], 0⟩

/-- One step of the begin-to-end walk: visit node k (dereference it),
advance through its next_node, stop at nullptr. The fuel argument is
an upper bound on the remaining steps; the chain length is always
enough. -/
def collectFromFuel (l : SingleLinkedList α) : Nat → Nat → List α
  | 0, _ => []
  | fuel + 1, k =>
      if h : 1 ≤ k ∧ k ≤ l.chain.length then
        l.chain.get ⟨k - 1, by omega⟩ :: collectFromFuel l fuel (k + 1)
      else []

/-- The begin-to-end traversal of a list: the sequence of values an
iterator visits from begin() until it compares equal to end(). -/
def traverse (l : SingleLinkedList α) : List α :=
  match beginIter l with
  | none => []
  | some k => collectFromFuel l l.chain.length k

/-- The copy constructor: default-construct (empty), then
FillingListInSeries(other), where the range-for reads other through
its begin-to-end traversal. -/
def copyCtor (other : SingleLinkedList α) : SingleLinkedList α :=
  (FillingListInSeries ⟨[], 0⟩ (traverse other)).getD ⟨[], 0⟩

/-- The copy-assignment operator: if (this == &rhs) return *this;
otherwise copy-construct tmp from rhs and swap it into this. The
isSelf flag models the this == &rhs pointer test. -/
def assignOp (lhs rhs : SingleLinkedList α) (isSelf : Bool) :
    SingleLinkedList α :=
  if isSelf then lhs
  else (swapOp lhs (copyCtor rhs)).1

/-- std::equal on the two begin/end ranges, as used by operator==:
true exactly when the ranges have the same length and pairwise equal
elements. -/
def seqEqual [DecidableEq α] : List α → List α → Bool
  | [], [] => true
  | a :: as, b :: bs => if a = b then seqEqual as bs else false
  | _, _ => false

/-- operator==(lhs, rhs): std::equal over the two traversals. -/
def opEq [DecidableEq α] (lhs rhs : SingleLinkedList α) : Bool :=
  seqEqual (traverse lhs) (traverse rhs)

/-- std::lexicographical_compare on the two begin/end ranges, as used
by operator<. -/
def lexLt [LT α] [DecidableRel (LT.lt (α := α))] :
    List α → List α → Bool
  | _, [] => false
  | [], _ :: _ => true
  | a :: as, b :: bs =>
      if a < b then true else if b < a then false else lexLt as bs

/-- operator<(lhs, rhs): lexicographical compare of the traversals. -/
def opLt [LT α] [DecidableRel (LT.lt (α := α))]
    (lhs rhs : SingleLinkedList α) : Bool :=
  lexLt (traverse lhs) (traverse rhs)

/-- operator>=(lhs, rhs) as written in the source, line 358:
return !(rhs < lhs). -/
def opGe [LT α] [DecidableRel (LT.lt (α := α))]
    (lhs rhs : SingleLinkedList α) : Bool :=
  !(opLt rhs lhs)

/-- operator<=(lhs, rhs), line 348: return !(rhs < lhs). -/
def opLe [LT α] [DecidableRel (LT.lt (α := α))]
    (lhs rhs : SingleLinkedList α) : Bool :=
  !(opLt rhs lhs)

/-- operator>(lhs, rhs), line 353: return (rhs < lhs). -/
def opGt [LT α] [DecidableRel (LT.lt (α := α))]
    (lhs rhs : SingleLinkedList α) : Bool :=
  opLt rhs lhs

/-- The size invariant: the stored counter equals the number of real
nodes reachable from the sentinel. -/
def WellFormed (l : SingleLinkedList α) : Prop :=
  l.size_ = l.chain.length

instance (l : SingleLinkedList α) : Decidable (WellFormed l) :=
  inferInstanceAs (Decidable (l.size_ = l.chain.length))

/-! Helper lemmas about the embedding. -/

theorem length_listInsertAt (k : Nat) (v : α) (xs : List α) :
    (listInsertAt k v xs).length = xs.length + 1 := by
  induction k generalizing xs with
  | zero => simp [listInsertAt]
  | succ n ih =>
      cases xs with
      | nil => simp [listInsertAt]
      | cons x xs => simp [listInsertAt, ih]

theorem listInsertAt_length_eq (v : α) (xs : List α) :
    listInsertAt xs.length v xs = xs ++ [v] := by
  induction xs with
  | nil => simp [listInsertAt]
  | cons x xs ih => simp [List.length_cons, listInsertAt, ih]

theorem length_listEraseAt (k : Nat) (xs : List α) (h : k < xs.length) :
    (listEraseAt k xs).length = xs.length - 1 := by
  induction xs generalizing k with
  | nil => simp at h
  | cons x xs ih =>
      cases k with
      | zero => simp [listEraseAt]
      | succ n =>
          simp only [listEraseAt, List.length_cons]
          have hn : n < xs.length := by
            simpa [List.length_cons] using Nat.lt_of_succ_lt_succ h
          rw [ih n hn]
          omega

theorem collectFromFuel_eq (l : SingleLinkedList α) :
    ∀ (fuel j : Nat), l.chain.length - j ≤ fuel →
      collectFromFuel l fuel (j + 1) = l.chain.drop j := by
  intro fuel
  induction fuel with
  | zero =>
      intro j h
      have hj : l.chain.length ≤ j := by omega
      simp [collectFromFuel, List.drop_eq_nil_of_le hj]
  | succ n ih =>
      intro j h
      by_cases hj : j + 1 ≤ l.chain.length
      · have hd : j < l.chain.length := by omega
        rw [collectFromFuel, dif_pos ⟨by omega, hj⟩, ih (j + 1) (by omega),
          List.drop_eq_getElem_cons hd]
        simp [List.get_eq_getElem]
      · have hle : l.chain.length ≤ j := by omega
        rw [collectFromFuel, dif_neg (by omega)]
        simp [List.drop_eq_nil_of_le hle]

theorem traverse_eq_chain (l : SingleLinkedList α) : traverse l = l.chain := by
  unfold traverse beginIter nextPtr
  by_cases h : 0 + 1 ≤ l.chain.length
  · rw [if_pos h]
    simpa using collectFromFuel_eq l l.chain.length 0 (by omega)
  · rw [if_neg h]
    have : l.chain = [] := by
      cases hc : l.chain with
      | nil => rfl
      | cons x xs => rw [hc] at h; simp at h
    simp [this]

theorem fillLoop_spec (vs : List α) :
    ∀ (t : SingleLinkedList α),
      fillLoop t (some t.chain.length) vs =
        (⟨t.chain ++ vs, t.size_ + vs.length⟩,
          some (t.chain.length + vs.length)) := by
  induction vs with
  | nil => intro t; simp [fillLoop]
  | cons v vs ih =>
      intro t
      have h1 : InsertAfterRun t (some t.chain.length) (some v) =
          (⟨t.chain ++ [v], t.size_ + 1⟩,
            InsertResult.ok (some (t.chain.length + 1))) := by
        simp [InsertAfterRun, listInsertAt_length_eq]
      rw [fillLoop, h1]
      have h2 : nextPtr (⟨t.chain ++ [v], t.size_ + 1⟩ : SingleLinkedList α)
          t.chain.length = some (t.chain.length + 1) := by
        simp [nextPtr]
      simp only [h2]
      have h3 := ih (⟨t.chain ++ [v], t.size_ + 1⟩ : SingleLinkedList α)
      simp only [List.length_append, List.length_singleton] at h3
      rw [h3]
      simp [List.append_assoc]
      omega

theorem fillingListInSeries_empty (S : List α) :
    FillingListInSeries (⟨[], 0⟩ : SingleLinkedList α) S =
      some ⟨S, S.length⟩ := by
  unfold FillingListInSeries
  rw [if_pos (by simp [IsEmpty])]
  have h := fillLoop_spec S (⟨[], 0⟩ : SingleLinkedList α)
  simp only [show ((⟨[], 0⟩ : SingleLinkedList α)).chain.length = 0 from rfl]
    at h
  simp [beforeBegin, h]

theorem initListCtor_eq (values : List α) :
    initListCtor values = ⟨values, values.length⟩ := by
  unfold initListCtor
  rw [fillingListInSeries_empty]
  rfl

theorem copyCtor_eq (l : SingleLinkedList α) :
    copyCtor l = ⟨l.chain, l.chain.length⟩ := by
  unfold copyCtor
  rw [traverse_eq_chain, fillingListInSeries_empty]
  rfl

theorem seqEqual_iff_eq [DecidableEq α] (a b : List α) :
    seqEqual a b = true ↔ a = b := by
  induction a generalizing b with
  | nil => cases b <;> simp [seqEqual]
  | cons x xs ih =>
      cases b with
      | nil => simp [seqEqual]
      | cons y ys =>
          by_cases hxy : x = y
          · simp [seqEqual, hxy, ih]
          · simp [seqEqual, hxy]

/-! Claim theorems. -/

/-- C1: the source operator>= does not return the negation of
operator<. At A = {1}, B = {2} both A < B and A >= B return true,
because the body of operator>= computes !(rhs < lhs) — the body of
operator<= — instead of !(lhs < rhs). -/
theorem c1_opGe_contradicts_claim :
    opLt (initListCtor [(1 : Nat)]) (initListCtor [2]) = true ∧
    opGe (initListCtor [(1 : Nat)]) (initListCtor [2]) = true ∧
    opGe (initListCtor [(1 : Nat)]) (initListCtor [2]) ≠
      !(opLt (initListCtor [(1 : Nat)]) (initListCtor [2])) := by
  decide

/-- C2 counterexample: on the one-element list {1} the position
begin() has no successor, so the EraseAfter precondition is violated,
yet the call does not trigger the assertion: it passes the
!IsEmpty() assert and then dereferences the null next_node pointer of
the last node (undefined behavior, no abort before the dereference). -/
theorem c2_counterexample :
    nextPtr (⟨[1], 1⟩ : SingleLinkedList Nat) 1 = none ∧
    EraseAfterRun (⟨[1], 1⟩ : SingleLinkedList Nat) (some 1) =
      EraseResult.ub ∧
    EraseAfterRun (⟨[1], 1⟩ : SingleLinkedList Nat) (some 1) ≠
      EraseResult.assertFail := by
  decide

/-- C2 amended: the assertion in EraseAfter checks only that the
container is non-empty. A call on an empty container aborts at the
assertion before any node is dereferenced or freed; a violating call
on a non-empty container — a null pos, or a pos whose node has no
successor — passes the assertion and dereferences a null pointer. -/
theorem c2_eraseAfter_assert_only_nonempty (l : SingleLinkedList α)
    (pos : Iter) :
    (IsEmpty l = true → EraseAfterRun l pos = EraseResult.assertFail) ∧
    (IsEmpty l = false → pos = none → EraseAfterRun l pos =
      EraseResult.ub) ∧
    (∀ k, IsEmpty l = false → pos = some k → k ≤ l.chain.length →
      nextPtr l k = none → EraseAfterRun l pos = EraseResult.ub) := by
  refine ⟨?_, ?_, ?_⟩
  · intro h
    simp [EraseAfterRun, h]
  · intro h hpos
    subst hpos
    simp [EraseAfterRun, h]
  · intro k h hpos hk hnext
    subst hpos
    simp [EraseAfterRun, h, hk, hnext]

/-- C2 amended, witness instances: the assertion fires on an empty
container; a null pos and a successor-less pos on a non-empty
container run into the null dereference instead. -/
theorem c2_eraseAfter_assert_only_nonempty_witness :
    EraseAfterRun (⟨[], 0⟩ : SingleLinkedList Nat) (some 0) =
      EraseResult.assertFail ∧
    EraseAfterRun (⟨[5], 1⟩ : SingleLinkedList Nat) none =
      EraseResult.ub ∧
    EraseAfterRun (⟨[5], 1⟩ : SingleLinkedList Nat) (some 1) =
      EraseResult.ub :=
  ⟨(c2_eraseAfter_assert_only_nonempty ⟨[], 0⟩ (some 0)).1 (by decide),
   (c2_eraseAfter_assert_only_nonempty ⟨[5], 1⟩ none).2.1 (by decide) rfl,
   (c2_eraseAfter_assert_only_nonempty ⟨[5], 1⟩ (some 1)).2.2 1
     (by decide) rfl (by decide) (by decide)⟩

/-- C3: when construction of the new value throws inside InsertAfter
at a valid position, the call exits with the list state — hence its
traversal and its size — exactly as before the call: the throw happens
before any link or counter is touched. -/
theorem c3_insertAfter_strong_guarantee (l : SingleLinkedList α) (k : Nat)
    (h : k ≤ l.chain.length) :
    InsertAfterRun l (some k) none = (l, InsertResult.thrown) ∧
    traverse (InsertAfterRun l (some k) none).1 = traverse l ∧
    GetSize (InsertAfterRun l (some k) none).1 = GetSize l := by
  have h1 : InsertAfterRun l (some k) none = (l, InsertResult.thrown) := by
    simp [InsertAfterRun, h]
  exact ⟨h1, by rw [h1], by rw [h1]⟩

/-- C3 witness: a throwing insertion after the first node of {1, 2}
leaves the list untouched. -/
theorem c3_insertAfter_strong_guarantee_witness :
    InsertAfterRun (⟨[1, 2], 2⟩ : SingleLinkedList Nat) (some 1) none =
      (⟨[1, 2], 2⟩, InsertResult.thrown) :=
  (c3_insertAfter_strong_guarantee ⟨[1, 2], 2⟩ 1 (by decide)).1

/-- C4: building a list from a sequence S through the
initializer_list constructor, and copy-constructing from the list so
built, yields a list whose begin-to-end traversal is exactly S and
whose GetSize is the length of S. -/
theorem c4_construction_preserves_sequence (S : List α) :
    traverse (initListCtor S) = S ∧
    GetSize (initListCtor S) = S.length ∧
    traverse (copyCtor (initListCtor S)) = S ∧
    GetSize (copyCtor (initListCtor S)) = S.length := by
  rw [initListCtor_eq, copyCtor_eq]
  simp [traverse_eq_chain, GetSize]

/-- C5: size_ equals the number of real nodes in the chain, and every
operation — PushFront, InsertAfter in every outcome, EraseAfter,
PopFront, Clear, swap, copy construction, copy assignment along both
branches of the self-test — preserves this invariant. -/
theorem c5_size_invariant_preserved (l m rhs : SingleLinkedList α) (v : α)
    (hl : WellFormed l) (hm : WellFormed m) :
    WellFormed (PushFront l v) ∧
    (∀ pos mk l2 r, InsertAfterRun l pos mk = (l2, r) → WellFormed l2) ∧
    (∀ pos l2 it, EraseAfterRun l pos = EraseResult.ok l2 it →
      WellFormed l2) ∧
    (∀ l2, PopFrontRun l = PopResult.ok l2 → WellFormed l2) ∧
    WellFormed (Clear l) ∧
    WellFormed (swapOp l m).1 ∧
    WellFormed (swapOp l m).2 ∧
    WellFormed (copyCtor l) ∧
    WellFormed (assignOp l rhs true) ∧
    WellFormed (assignOp l rhs false) := by
  refine ⟨?_, ?_, ?_, ?_, ?_, ?_, ?_, ?_, ?_, ?_⟩
  · simpa [WellFormed, PushFront] using hl
  · intro pos mk l2 r hrun
    cases pos with
    | none =>
        simp [InsertAfterRun] at hrun
        rw [← hrun.1]
        exact hl
    | some k =>
        by_cases hk : k ≤ l.chain.length
        · cases mk with
          | none =>
              simp [InsertAfterRun, hk] at hrun
              rw [← hrun.1]
              exact hl
          | some w =>
              simp [InsertAfterRun, hk] at hrun
              rw [← hrun.1]
              simp [WellFormed, length_listInsertAt]
              exact hl
        · simp [InsertAfterRun, hk] at hrun
          rw [← hrun.1]
          exact hl
  · intro pos l2 it hrun
    by_cases hemp : IsEmpty l
    · simp [EraseAfterRun, hemp] at hrun
    · cases pos with
      | none => simp [EraseAfterRun, hemp] at hrun
      | some k =>
          by_cases hk : k ≤ l.chain.length
          · cases hnp : nextPtr l k with
            | none => simp [EraseAfterRun, hemp, hk, hnp] at hrun
            | some j =>
                simp [EraseAfterRun, hemp, hk, hnp] at hrun
                have hlt : k + 1 ≤ l.chain.length := by
                  by_contra hc
                  simp [nextPtr, hc] at hnp
                rw [← hrun.1]
                have hlen := length_listEraseAt k l.chain (by omega)
                have hl2 : l.size_ = l.chain.length := hl
                simp [WellFormed, hlen]
                omega
          · simp [EraseAfterRun, hemp, hk] at hrun
  · intro l2 hrun
    by_cases hemp : IsEmpty l
    · simp [PopFrontRun, hemp] at hrun
    · cases hc : l.chain with
      | nil => simp [PopFrontRun, hemp, hc] at hrun
      | cons x rest =>
          simp [PopFrontRun, hemp, hc] at hrun
          rw [← hrun]
          have hl2 : l.size_ = l.chain.length := hl
          rw [hc] at hl2
          simp [List.length_cons] at hl2
          simp [WellFormed]
          omega
  · simp [WellFormed, Clear]
  · simpa [WellFormed, swapOp] using hm
  · simpa [WellFormed, swapOp] using hl
  · rw [copyCtor_eq]
    rfl
  · simpa [assignOp] using hl
  · simp [assignOp, swapOp, copyCtor_eq, WellFormed]

/-- C5 witness: the invariant statement applied to concrete
well-formed lists, instantiating the PushFront, Clear and swap
conjuncts. -/
theorem c5_size_invariant_preserved_witness :
    WellFormed (PushFront (⟨[1], 1⟩ : SingleLinkedList Nat) 2) ∧
    WellFormed (Clear (⟨[1], 1⟩ : SingleLinkedList Nat)) ∧
    WellFormed (swapOp (⟨[1], 1⟩ : SingleLinkedList Nat) ⟨[2, 3], 2⟩).1 :=
  ⟨(c5_size_invariant_preserved ⟨[1], 1⟩ ⟨[2, 3], 2⟩ ⟨[4], 1⟩ 2
      (by decide) (by decide)).1,
   (c5_size_invariant_preserved ⟨[1], 1⟩ ⟨[2, 3], 2⟩ ⟨[4], 1⟩ 2
      (by decide) (by decide)).2.2.2.2.1,
   (c5_size_invariant_preserved ⟨[1], 1⟩ ⟨[2, 3], 2⟩ ⟨[4], 1⟩ 2
      (by decide) (by decide)).2.2.2.2.2.1⟩

/-- C6: operator== returns true exactly when the two begin-to-end
traversals have equal length and equal elements at every position. -/
theorem c6_opEq_iff [DecidableEq α] (A B : SingleLinkedList α) :
    opEq A B = true ↔
      ((traverse A).length = (traverse B).length ∧
        ∀ i, (traverse A).get? i = (traverse B).get? i) := by
  rw [opEq, seqEqual_iff_eq]
  constructor
  · intro h
    rw [h]
    exact ⟨rfl, fun _ => rfl⟩
  · intro h
    exact List.ext_get? h.2

/-- C6 witness: two equal two-element lists compare equal. -/
theorem c6_opEq_iff_witness :
    opEq (⟨[1, 2], 2⟩ : SingleLinkedList Nat) ⟨[1, 2], 2⟩ = true :=
  (c6_opEq_iff ⟨[1, 2], 2⟩ ⟨[1, 2], 2⟩).mpr ⟨rfl, fun _ => rfl⟩

/-- C7: on the container built from {1, 2, 3}, EraseAfter(begin())
removes the element 2, leaving contents {1, 3} and size 2, and the
returned position dereferences to 3. -/
theorem c7_eraseAfter_scenario :
    EraseAfterRun (initListCtor [(1 : Nat), 2, 3])
        (beginIter (initListCtor [(1 : Nat), 2, 3])) =
      EraseResult.ok ⟨[1, 3], 2⟩ (some 2) ∧
    traverse (⟨[1, 3], 2⟩ : SingleLinkedList Nat) = [1, 3] ∧
    GetSize (⟨[1, 3], 2⟩ : SingleLinkedList Nat) = 2 ∧
    derefIter (⟨[1, 3], 2⟩ : SingleLinkedList Nat) (some 2) = some 3 := by
  decide

/-- C8: InsertAfter at before_begin yields exactly the state and
count PushFront yields on the same list, returns the handle to the
new front node, and that handle dereferences to the inserted value. -/
theorem c8_insert_before_begin_eq_pushFront (l : SingleLinkedList α)
    (v : α) :
    InsertAfterRun l (beforeBegin l) (some v) =
      (PushFront l v, InsertResult.ok (some 1)) ∧
    derefIter (PushFront l v) (some 1) = some v := by
  constructor
  · simp [InsertAfterRun, beforeBegin, PushFront, listInsertAt]
  · have hc : 1 ≤ 1 ∧ 1 ≤ (v :: l.chain).length := by
      simp
    simp [derefIter, PushFront, hc]

/-- C8 witness: inserting 9 before the beginning of {2} equals
PushFront of 9. -/
theorem c8_insert_before_begin_eq_pushFront_witness :
    InsertAfterRun (⟨[2], 1⟩ : SingleLinkedList Nat)
        (beforeBegin ⟨[2], 1⟩) (some 9) =
      (PushFront (⟨[2], 1⟩ : SingleLinkedList Nat) 9,
        InsertResult.ok (some 1)) ∧
    derefIter (PushFront (⟨[2], 1⟩ : SingleLinkedList Nat) 9) (some 1) =
      some 9 :=
  c8_insert_before_begin_eq_pushFront ⟨[2], 1⟩ 9

/-- C9: self-assignment takes the this == &rhs guard and returns the
list unchanged; along the unguarded copy-and-swap path the traversal
is preserved as well, and so is the size on a well-formed list. -/
theorem c9_self_assignment_id (a : SingleLinkedList α) :
    assignOp a a true = a ∧
    traverse (assignOp a a false) = traverse a ∧
    (WellFormed a → GetSize (assignOp a a false) = GetSize a) := by
  refine ⟨rfl, ?_, ?_⟩
  · simp [assignOp, swapOp, copyCtor_eq, traverse_eq_chain]
  · intro h
    simp [assignOp, swapOp, copyCtor_eq, GetSize]
    exact h.symm

/-- C9 witness: self-assignment of {1, 2} leaves it unchanged, with
size 2 along either branch. -/
theorem c9_self_assignment_id_witness :
    assignOp (⟨[1, 2], 2⟩ : SingleLinkedList Nat) ⟨[1, 2], 2⟩ true =
      ⟨[1, 2], 2⟩ ∧
    GetSize (assignOp (⟨[1, 2], 2⟩ : SingleLinkedList Nat)
      ⟨[1, 2], 2⟩ false) = 2 :=
  ⟨(c9_self_assignment_id ⟨[1, 2], 2⟩).1,
   (c9_self_assignment_id ⟨[1, 2], 2⟩).2.2 (by decide)⟩

/-- C10: a default-constructed iterator holds a null node_ pointer, so
it compares equal to end() and cend() of every list, and unequal to
begin() of every non-empty well-formed list, whose first-node pointer
is not null. -/
theorem c10_default_iter_eq_end (l : SingleLinkedList α)
    (h : WellFormed l) :
    iterEq defaultIter (endIter l) = true ∧
    iterEq defaultIter (cendIter l) = true ∧
    (IsEmpty l = false → iterEq defaultIter (beginIter l) = false) := by
  refine ⟨rfl, rfl, ?_⟩
  intro hne
  have hsz : l.size_ ≠ 0 := by simpa [IsEmpty] using hne
  have hlen : 1 ≤ l.chain.length := by
    rw [WellFormed] at h
    omega
  simp [iterEq, beginIter, nextPtr, hlen, defaultIter]

/-- C10 witness: on the list {7} the default iterator equals end()
and differs from begin(). -/
theorem c10_default_iter_eq_end_witness :
    iterEq defaultIter (endIter (⟨[7], 1⟩ : SingleLinkedList Nat)) =
      true ∧
    iterEq defaultIter (beginIter (⟨[7], 1⟩ : SingleLinkedList Nat)) =
      false :=
  ⟨(c10_default_iter_eq_end ⟨[7], 1⟩ (by decide)).1,
   (c10_default_iter_eq_end ⟨[7], 1⟩ (by decide)).2.2 (by decide)⟩

end SLL
